import Mathlib

/-!
Verification of the Catalog & Scan-Ledger core of the QuantumLink
QR/barcode application (`modern_qr_barcode_gui.py`).

The shallow embedding below translates the data-layer fragments of the
source into Lean:

* the product catalog (`self.products`, a Python dict from product id to
  `{"name": ..., "price": ...}`) becomes an association list
  `List (String × ProductRecord)` with Python-dict update semantics
  (an existing key is overwritten in place, a new key is appended);
* the scan history (`self.scan_history`, a Python list mutated by
  `insert(0, ...)` and `del`) becomes a `List ScanEvent` passed explicitly;
* the durable JSON file becomes the `disk` component of `StoreState`;
  `save_products` (a whole-file `json.dump` of the current catalog) copies
  the in-memory catalog to `disk`;
* I/O outcomes (missing file, unreadable file, corrupt JSON, QR-encoder
  failure, the confirmation dialog) are reified as explicit parameters or
  outcome constructors, at the granularity of the source's `try/except`
  clauses; the GUI status bar / message boxes are reified as a Bool
  "an error was reported" where a claim needs it;
* Python `float(...)` applied to a stripped price entry is modelled over ℚ
  on plain decimal literals (optional sign, digits, optional fractional
  part); exponent, `inf`/`nan` and underscore forms of Python's parser are
  outside the model, as none of the claims exercises them;
* the f-string `f"₹{v:.2f}"` is modelled by `formatPrice`, which renders an
  exact rational with two digits after the decimal point (the model rounds
  exact halves up, where CPython rounds the underlying binary double to
  even; no claim distinguishes the tie cases).
-/

/-- Model of Python `s.startswith(p)`: `p` is a character-prefix of `s`.
(Lean's own `String.startsWith` is byte-level and not kernel-reducible, so
the embedding tests the character list.) -/
def pyStartsWith (s p : String) : Bool :=
  p.data.isPrefixOf s.data

/-- Model of Python `s.strip()`: drop whitespace from both ends. -/
def pyStrip (s : String) : String :=
  ⟨(((s.data.dropWhile Char.isWhitespace).reverse).dropWhile Char.isWhitespace).reverse⟩

/-- A product record as stored in the JSON database and in `self.products`:
the Python dict `{"name": ..., "price": ...}` (`price` is the already
formatted display string, e.g. `"₹12.50"`). -/
structure ProductRecord where
  name : String
  price : String
  deriving DecidableEq

/-- The in-memory catalog `self.products`: a Python dict from product id to
record, embedded as an association list in insertion order with unique keys
maintained by `dictInsert`. -/
abbrev Catalog := List (String × ProductRecord)

/-- The key set (in iteration order) of a catalog: the Python dict's keys. -/
def keys (c : Catalog) : List String :=
  c.map Prod.fst

/-- Python dict read `self.products[pid]` guarded by membership, i.e. the
first (and, for a dict, only) binding of `pid`. -/
def lookupProduct (c : Catalog) (pid : String) : Option ProductRecord :=
  List.lookup pid c

/-- Rewrites the binding of key `k` to `(k, r)`, leaving other bindings
unchanged; used for Python's in-place dict update of an existing key. -/
def updateEntry (k : String) (r : ProductRecord) (e : String × ProductRecord) :
    String × ProductRecord :=
  if e.1 = k then (k, r) else e

/-- Python dict assignment `self.products[pid] = rec`: overwrite in place if
the key exists, otherwise append the new binding at the end (dicts preserve
insertion order). -/
def dictInsert (c : Catalog) (k : String) (r : ProductRecord) : Catalog :=
  if (keys c).contains k then c.map (updateEntry k r) else c ++ [(k, r)]

/-- The result of `_analyze_scanned_data` (source lines 484-490): the dict
`{"type": ..., "info": ...}` where `info` is present only for product hits. -/
structure Analysis where
  type : String
  info : Option String
  deriving DecidableEq

/-- Source `_analyze_scanned_data` (lines 484-490).  The Python
`if data in self.products` test followed by the `self.products[data]`
accesses is embedded as one `List.lookup`; the prefix chain is verbatim. -/
def analyze_scanned_data (products : Catalog) (data : String) : Analysis :=
  match List.lookup data products with
  | some r =>
      { type := "Product ID"
        info := some ("Name: " ++ r.name ++ "\nPrice: " ++ r.price) }
  | none =>
      if pyStartsWith data "WIFI:" then { type := "Wi-Fi Network", info := none }
      else if pyStartsWith data "http://" ∨ pyStartsWith data "https://" then
        { type := "URL", info := none }
      else if pyStartsWith data "mailto:" then { type := "Email Address", info := none }
      else if pyStartsWith data "tel:" then { type := "Phone Number", info := none }
      else { type := "Plain Text", info := none }

/-- One entry of `self.scan_history`: the dict
`{"timestamp": ..., "data": ..., "type": ...}` built in `add_to_history`. -/
structure ScanEvent where
  timestamp : String
  data : String
  type : String
  deriving DecidableEq

/-- Source `add_to_history` (lines 559-562): `self.scan_history.insert(0, ...)`.
The wall-clock string `datetime.now().strftime(...)` is passed in as the
`timestamp` parameter. -/
def add_to_history (timestamp data dataType : String)
    (scan_history : List ScanEvent) : List ScanEvent :=
  { timestamp := timestamp, data := data, type := dataType } :: scan_history

/-- Source `delete_history_item` (lines 550-558), element type abstracted.
`sel` is the list of selected row indices (a treeview selection names
distinct rows, so callers satisfy `sel.Nodup`); `confirm` is the user's
answer to the `askyesno` dialog.  An empty selection raises `IndexError`,
caught and reported as the error status "No history item selected." — the
second component records whether an error was reported.  On confirmation
the indices are sorted with `sorted(..., reverse=True)` (embedded as
insertion sort, which agrees with any sort on duplicate-free naturals) and
erased from highest to lowest (`del self.scan_history[index]`). -/
def delete_history_item {α : Type} (sel : List ℕ) (confirm : Bool)
    (hist : List α) : List α × Bool :=
  if sel = [] then (hist, true)
  else if confirm then
    (((sel.insertionSort (· ≤ ·)).reverse).foldl (fun h i => h.eraseIdx i) hist, false)
  else (hist, false)

/-- Specification-side description of batch deletion: keep exactly the
elements whose position in the original sequence is not selected
(positions resolved against the sequence before any deletion). -/
def removeIndices {α : Type} (sel : List ℕ) (l : List α) : List α :=
  (l.enum.filter (fun p => decide (p.1 ∉ sel))).map Prod.snd

/-- The I/O outcome of the startup read of `products_database.json` in
`load_products` (lines 110-117): the file may be absent; `open`/read may
raise `IOError`; `json.load` may raise `json.JSONDecodeError` on malformed
JSON text; `json.load` may instead raise an exception outside those two
classes — e.g. `UnicodeDecodeError` (a `ValueError` that is neither a
`JSONDecodeError` nor an `IOError`) when the file's bytes are not decodable
in the platform text encoding; or a catalog is parsed. -/
inductive LoadOutcome where
  | fileMissing : LoadOutcome
  | readFailed : LoadOutcome
  | corruptJson : LoadOutcome
  | undecodable : LoadOutcome
  | parsed : Catalog → LoadOutcome
  deriving DecidableEq

/-- Source `load_products` (lines 110-117).  On a normal return,
`Except.ok` carries the loaded catalog and whether an error dialog
(`messagebox.showerror`) was shown: a missing file yields `{}` silently
and a caught `IOError`/`JSONDecodeError` yields `{}` with the
"Database Error" dialog.  The `except (json.JSONDecodeError, IOError)`
clause at line 114 catches nothing else, so an exception of any other
class — such as `UnicodeDecodeError` from a byte-wise undecodable file —
propagates out of `load_products` (`Except.error`). -/
def load_products : LoadOutcome → Except String (Catalog × Bool)
  | .fileMissing => .ok ([], false)
  | .readFailed => .ok ([], true)
  | .corruptJson => .ok ([], true)
  | .undecodable => .error "UnicodeDecodeError"
  | .parsed c => .ok (c, false)

/-- The CSV header row written by `export_to_csv` (line 583). -/
def csvHeader : List String :=
  ["product_id", "name", "price"]

/-- Source `export_to_csv` (lines 577-586) at the `csv.writer` row level
(quoting/escaping of the physical file is the csv library's concern).
An empty catalog aborts with the "Export Failed" warning and writes
nothing (`none`); otherwise the header row is written followed by one row
`[pid, name, price]` per record in catalog iteration order. -/
def export_to_csv (products : Catalog) : Option (List (List String)) :=
  if products = [] then none
  else some (csvHeader :: products.map (fun e => [e.1, e.2.name, e.2.price]))

/-- Re-parsing an exported CSV at the row level: drop the header row and
read each three-field row back as an `(id, name, price)` triple. -/
def parseCsvTriples (rows : List (List String)) : List (String × String × String) :=
  (rows.drop 1).filterMap (fun r =>
    match r with
    | [a, b, c] => some (a, b, c)
    | _ => none)

/-- The data-layer state: the in-memory catalog `self.products` and the
content of the durable file `products_database.json`. -/
structure StoreState where
  mem : Catalog
  disk : Catalog
  deriving DecidableEq

/-- Source `save_products` (lines 119-122): `json.dump(self.products, f)`
overwrites the whole durable file with the current catalog (successful-write
case; a failed dump leaves the file as it was and is outside the claims). -/
def save_products (st : StoreState) : StoreState :=
  { st with disk := st.mem }

/-- Value of a digit string, most significant first. -/
def digitsVal (l : List Char) : ℕ :=
  l.foldl (fun n c => 10 * n + (c.toNat - 48)) 0

/-- Unsigned decimal literal accepted by Python `float`: digits, or digits
on at least one side of a single decimal point. -/
def parseUnsignedDecimal (l : List Char) : Option ℚ :=
  match l.splitOn '.' with
  | [ip] =>
      if ip ≠ [] ∧ ip.all Char.isDigit then some (digitsVal ip) else none
  | [ip, fp] =>
      if (ip ≠ [] ∨ fp ≠ []) ∧ ip.all Char.isDigit ∧ fp.all Char.isDigit then
        some ((digitsVal ip : ℚ) + (digitsVal fp : ℚ) / (10 : ℚ) ^ fp.length)
      else none
  | _ => none

/-- Model of Python `float(s)` on plain decimal literals: an optional sign
followed by an unsigned decimal literal (see the module docstring for the
forms deliberately outside the model). -/
def pyFloat (s : String) : Option ℚ :=
  match s.data with
  | '-' :: rest => (parseUnsignedDecimal rest).map (fun q => -q)
  | '+' :: rest => parseUnsignedDecimal rest
  | l => parseUnsignedDecimal l

/-- The two-digit cents field of a `.2f` rendering, zero-padded. -/
def centsStr (c : ℕ) : String :=
  if c < 10 then "0" ++ toString c else toString c

/-- Model of the f-string `f"{v:.2f}"` on an exact rational: round to the
nearest hundredth and render sign, units, `.`, and two cents digits. -/
def twoDecString (v : ℚ) : String :=
  let n : ℤ := round (v * 100)
  (if n < 0 then "-" else "") ++ toString (n.natAbs / 100) ++ "." ++ centsStr (n.natAbs % 100)

/-- The stored price string `f"₹{price_val:.2f}"` (lines 377 and 534). -/
def formatPrice (v : ℚ) : String :=
  "₹" ++ twoDecString v

/-- Status reported by `generate_product_qr`. -/
inductive GenStatus where
  | validationError : GenStatus
  | qrError : GenStatus
  | ok : GenStatus
  deriving DecidableEq

/-- Source `generate_product_qr` (lines 366-381).  The three entry values
are stripped; if any is empty the "All product fields are required." error
is reported and nothing changes; if the price does not parse as a float the
"Price must be a valid number." error is reported and nothing changes
(the source performs no sign check).  Otherwise, `qrOk` reifies whether
`_generate_qr_image` produced an image (on `None` nothing changes); on
success the record is written into the catalog and `save_products` runs. -/
def generate_product_qr (pid name priceStr : String) (qrOk : Bool)
    (st : StoreState) : GenStatus × StoreState :=
  let p := pyStrip pid
  let n := pyStrip name
  let pr := pyStrip priceStr
  if p = "" ∨ n = "" ∨ pr = "" then (.validationError, st)
  else
    match pyFloat pr with
    | none => (.validationError, st)
    | some v =>
        if qrOk then
          let st₁ : StoreState :=
            { st with mem := dictInsert st.mem p { name := n, price := formatPrice v } }
          (.ok, save_products st₁)
        else (.qrError, st)

/-- Status reported by the edit dialog's `save_changes`. -/
inductive EditStatus where
  | validationError : EditStatus
  | ok : EditStatus
  deriving DecidableEq

/-- Source `save_changes` inside `edit_product` (lines 527-537).  `pid` is
the id of the selected (hence present) product; the new name and price are
stripped; empty fields or an unparseable price report an error and change
nothing; otherwise the record stored under `pid` is rewritten in place and
`save_products` runs.  (For an absent `pid` the source would raise
`KeyError`; the caller guarantees presence, and every claim about this
operation assumes it.) -/
def save_changes (pid name priceStr : String) (st : StoreState) :
    EditStatus × StoreState :=
  let n := pyStrip name
  let pr := pyStrip priceStr
  if n = "" ∨ pr = "" then (.validationError, st)
  else
    match pyFloat pr with
    | none => (.validationError, st)
    | some v =>
        let st₁ : StoreState :=
          { st with mem := st.mem.map (updateEntry pid { name := n, price := formatPrice v }) }
        (.ok, save_products st₁)

/-- A price string rendered with exactly two decimal places: its character
sequence ends in a decimal point followed by exactly two digit characters. -/
def hasTwoDecimalPlaces (s : String) : Prop :=
  ∃ (l : List Char) (d₁ d₂ : Char),
    s.data = l ++ ['.', d₁, d₂] ∧ d₁.isDigit = true ∧ d₂.isDigit = true

/-- A small concrete catalog used to instantiate theorems with hypotheses. -/
def sampleCatalog : Catalog :=
  [("X", { name := "a", price := "₹1.00" }), ("Y", { name := "b", price := "₹2.00" })]

/-- A concrete store state built from `sampleCatalog`. -/
def sampleState : StoreState :=
  { mem := sampleCatalog, disk := sampleCatalog }

/-! ### Helper lemmas -/

/-- `List.lookup` fails exactly on keys absent from the catalog. -/
theorem lookup_eq_none_iff (c : Catalog) (k : String) :
    List.lookup k c = none ↔ k ∉ keys c := by
  induction c with
  | nil => simp [keys]
  | cons e t ih =>
      obtain ⟨a, r⟩ := e
      by_cases h : k = a
      · subst h
        simp [List.lookup, keys]
      · have hbeq : (k == a) = false := beq_eq_false_iff_ne.mpr h
        have hx : List.lookup k ((a, r) :: t) = List.lookup k t := by
          simp [List.lookup, hbeq]
        rw [hx, ih]
        simp [keys, h]

/-- Folding `add_to_history` over a batch of events reverses their order
on top of the existing ledger. -/
theorem foldl_add_to_history (evs acc : List ScanEvent) :
    evs.foldl (fun h e => add_to_history e.timestamp e.data e.type h) acc
      = evs.reverse ++ acc := by
  induction evs generalizing acc with
  | nil => simp
  | cons e t ih => simp [List.foldl_cons, add_to_history, ih]

/-! ### Claim theorems -/

/-- C1: the classifier tests its rules in a fixed order with first match
winning: a payload equal to a catalog id is a Product ID regardless of any
prefix it carries; otherwise the `WIFI:`, `http://`/`https://`, `mailto:`
and `tel:` prefixes are tried in that order, and anything left is Plain
Text.  The last conjunct records the rule-1 precedence of a product id that
also looks like a URL. -/
theorem classifier_first_match_order (products : Catalog) (data : String) :
    (data ∈ keys products →
      (analyze_scanned_data products data).type = "Product ID")
  ∧ (data ∉ keys products → pyStartsWith data "WIFI:" = true →
      (analyze_scanned_data products data).type = "Wi-Fi Network")
  ∧ (data ∉ keys products → pyStartsWith data "WIFI:" = false →
      (pyStartsWith data "http://" = true ∨ pyStartsWith data "https://" = true) →
      (analyze_scanned_data products data).type = "URL")
  ∧ (data ∉ keys products → pyStartsWith data "WIFI:" = false →
      pyStartsWith data "http://" = false → pyStartsWith data "https://" = false →
      pyStartsWith data "mailto:" = true →
      (analyze_scanned_data products data).type = "Email Address")
  ∧ (data ∉ keys products → pyStartsWith data "WIFI:" = false →
      pyStartsWith data "http://" = false → pyStartsWith data "https://" = false →
      pyStartsWith data "mailto:" = false → pyStartsWith data "tel:" = true →
      (analyze_scanned_data products data).type = "Phone Number")
  ∧ (data ∉ keys products → pyStartsWith data "WIFI:" = false →
      pyStartsWith data "http://" = false → pyStartsWith data "https://" = false →
      pyStartsWith data "mailto:" = false → pyStartsWith data "tel:" = false →
      (analyze_scanned_data products data).type = "Plain Text")
  ∧ (data ∈ keys products →
      (pyStartsWith data "http://" = true ∨ pyStartsWith data "https://" = true) →
      (analyze_scanned_data products data).type = "Product ID") := by
  rcases h : List.lookup data products with _ | r
  · have hk : data ∉ keys products := (lookup_eq_none_iff _ _).mp h
    refine ⟨fun hmem => absurd hmem hk, ?_, ?_, ?_, ?_, ?_,
      fun hmem _ => absurd hmem hk⟩
    · intro _ hw
      simp [analyze_scanned_data, h, hw]
    · rintro _ hw (hh | hh) <;> simp [analyze_scanned_data, h, hw, hh]
    · intro _ hw hh hs hm
      simp [analyze_scanned_data, h, hw, hh, hs, hm]
    · intro _ hw hh hs hm ht
      simp [analyze_scanned_data, h, hw, hh, hs, hm, ht]
    · intro _ hw hh hs hm ht
      simp [analyze_scanned_data, h, hw, hh, hs, hm, ht]
  · have hk : data ∈ keys products := by
      by_contra hk
      rw [← lookup_eq_none_iff] at hk
      simp [h] at hk
    exact ⟨fun _ => by simp [analyze_scanned_data, h],
      fun hmem _ => absurd hk hmem,
      fun hmem _ _ => absurd hk hmem,
      fun hmem _ _ _ _ => absurd hk hmem,
      fun hmem _ _ _ _ _ => absurd hk hmem,
      fun hmem _ _ _ _ _ => absurd hk hmem,
      fun _ _ => by simp [analyze_scanned_data, h]⟩

/-- Witness for C1: a payload that is a catalog id and also carries the
`https://` prefix classifies as Product ID (rule 1), while the same payload
against an empty catalog classifies as URL (rule 3). -/
theorem classifier_first_match_order_witness :
    ("https://shop.example" ∈
        keys [("https://shop.example", { name := "Widget", price := "₹1.00" })]
      ∧ (analyze_scanned_data
          [("https://shop.example", { name := "Widget", price := "₹1.00" })]
          "https://shop.example").type = "Product ID")
    ∧ (analyze_scanned_data [] "https://shop.example").type = "URL" :=
  ⟨⟨by decide,
    (classifier_first_match_order
      [("https://shop.example", { name := "Widget", price := "₹1.00" })]
      "https://shop.example").2.2.2.2.2.2 (by decide) (Or.inr (by decide))⟩,
   (classifier_first_match_order [] "https://shop.example").2.2.1 (by decide)
     (by decide) (Or.inr (by decide))⟩

/-- C9: the classifier's category (`type` field) depends only on the
payload and the set of ids present in the catalog: two catalogs whose keys
form the same set — regardless of insertion order and of the names and
prices stored under those keys — classify every payload identically; the
classifier is a pure function, hence deterministic. -/
theorem classifier_category_depends_only_on_key_set (data : String)
    (c₁ c₂ : Catalog) (h : (keys c₁).toFinset = (keys c₂).toFinset) :
    (analyze_scanned_data c₁ data).type = (analyze_scanned_data c₂ data).type := by
  have hmem : ∀ k : String, k ∈ keys c₁ ↔ k ∈ keys c₂ := by
    intro k
    rw [← List.mem_toFinset, h, List.mem_toFinset]
  rcases h₁ : List.lookup data c₁ with _ | r₁ <;>
    rcases h₂ : List.lookup data c₂ with _ | r₂
  · simp [analyze_scanned_data, h₁, h₂]
  · exfalso
    have hk₁ : data ∉ keys c₁ := (lookup_eq_none_iff _ _).mp h₁
    have hk₂ : data ∉ keys c₂ := fun hx => hk₁ ((hmem data).mpr hx)
    rw [← lookup_eq_none_iff] at hk₂
    simp [h₂] at hk₂
  · exfalso
    have hk₂ : data ∉ keys c₂ := (lookup_eq_none_iff _ _).mp h₂
    have hk₁ : data ∉ keys c₁ := fun hx => hk₂ ((hmem data).mp hx)
    rw [← lookup_eq_none_iff] at hk₁
    simp [h₁] at hk₁
  · simp [analyze_scanned_data, h₁, h₂]

/-- Witness for C9: the same two keys in opposite insertion orders with
different names and prices, same category for a payload hitting a key. -/
theorem classifier_category_depends_only_on_key_set_witness :
    (keys [("A", { name := "a1", price := "₹1.00" }),
           ("B", { name := "b1", price := "₹2.00" })]).toFinset
      = (keys [("B", { name := "b2", price := "₹9.00" }),
               ("A", { name := "a2", price := "₹8.00" })]).toFinset
    ∧ (analyze_scanned_data [("A", { name := "a1", price := "₹1.00" }),
          ("B", { name := "b1", price := "₹2.00" })] "A").type
      = (analyze_scanned_data [("B", { name := "b2", price := "₹9.00" }),
          ("A", { name := "a2", price := "₹8.00" })] "A").type :=
  ⟨by decide, classifier_category_depends_only_on_key_set "A" _ _ (by decide)⟩

/-- C2: appending a scan event always inserts at the head with the supplied
current timestamp, so the ledger stays newest-first: appending E1, E2, E3
to an empty ledger yields [E3, E2, E1], and in general a batch of appends
leaves the ledger equal to the reverse of the append order. -/
theorem scan_history_append_newest_first :
    (∀ (ts d ty : String) (h : List ScanEvent),
        add_to_history ts d ty h = { timestamp := ts, data := d, type := ty } :: h)
  ∧ (∀ e₁ e₂ e₃ : ScanEvent,
        add_to_history e₃.timestamp e₃.data e₃.type
          (add_to_history e₂.timestamp e₂.data e₂.type
            (add_to_history e₁.timestamp e₁.data e₁.type [])) = [e₃, e₂, e₁])
  ∧ (∀ evs : List ScanEvent,
        evs.foldl (fun h e => add_to_history e.timestamp e.data e.type h) []
          = evs.reverse) := by
  refine ⟨fun _ _ _ _ => rfl, fun e₁ e₂ e₃ => rfl, fun evs => ?_⟩
  simpa using foldl_add_to_history evs []

/-- Counterexample for C8 as stated: on an empty selection the code does
report an error (the "No history item selected." status raised via the
caught `IndexError`), so the no-op is not silent. -/
theorem empty_selection_not_silent_cex :
    ¬ ((delete_history_item [] true
        [({ timestamp := "2024-01-01 00:00:00", data := "d", type := "Plain Text" }
          : ScanEvent)]).2 = false) := by
  decide

/-- C8 (amended): batch delete with an empty selection leaves the ledger
unchanged, but reports the "No history item selected." error rather than
failing silently. -/
theorem empty_selection_noop_but_reports (hist : List ScanEvent) (confirm : Bool) :
    delete_history_item [] confirm hist = (hist, true) := by
  simp [delete_history_item]

/-- C6: the claim states the source's evident intent — the except clause
and its "Database Error" dialog exist to degrade every bad durable-storage
condition to an empty catalog — and load does degrade gracefully on the
outcomes the clause catches (missing file silently; `IOError` and
`JSONDecodeError` with a notice).  But the code slips on a corrupt file
whose bytes are undecodable: there `json.load` raises
`UnicodeDecodeError`, which `except (json.JSONDecodeError, IOError)` does
not catch, so the exception propagates and startup aborts instead of
returning an empty mapping. -/
theorem load_products_uncaught_exception :
    load_products LoadOutcome.fileMissing = Except.ok ([], false)
    ∧ load_products LoadOutcome.readFailed = Except.ok ([], true)
    ∧ load_products LoadOutcome.corruptJson = Except.ok ([], true)
    ∧ load_products LoadOutcome.undecodable = Except.error "UnicodeDecodeError"
    ∧ ¬ ∃ r, load_products LoadOutcome.undecodable = Except.ok r := by
  refine ⟨rfl, rfl, rfl, rfl, ?_⟩
  rintro ⟨r, hr⟩
  simp [load_products] at hr

/-- `updateEntry` never changes the key of a binding. -/
theorem updateEntry_fst (k : String) (r : ProductRecord) (e : String × ProductRecord) :
    (updateEntry k r e).1 = e.1 := by
  unfold updateEntry
  split
  · simp [*]
  · rfl

/-- Rewriting one binding in place preserves the key sequence. -/
theorem keys_map_updateEntry (c : Catalog) (k : String) (r : ProductRecord) :
    keys (c.map (updateEntry k r)) = keys c := by
  unfold keys
  rw [List.map_map]
  exact List.map_congr_left (fun e _ => updateEntry_fst k r e)

/-- Frame property of the in-place rewrite: other keys read unchanged. -/
theorem lookup_map_updateEntry_ne (c : Catalog) (k y : String) (r : ProductRecord)
    (hne : y ≠ k) :
    List.lookup y (c.map (updateEntry k r)) = List.lookup y c := by
  induction c with
  | nil => rfl
  | cons e t ih =>
      obtain ⟨a, b⟩ := e
      by_cases hak : a = k
      · subst hak
        have hya : (y == a) = false := beq_eq_false_iff_ne.mpr hne
        have h1 : updateEntry a r (a, b) = (a, r) := by simp [updateEntry]
        rw [List.map_cons, h1]
        simp [List.lookup, hya, ih]
      · have h1 : updateEntry k r (a, b) = (a, b) := by simp [updateEntry, hak]
        rw [List.map_cons, h1]
        by_cases hya : y = a
        · subst hya
          simp [List.lookup]
        · have hbeq : (y == a) = false := beq_eq_false_iff_ne.mpr hya
          simp [List.lookup, hbeq, ih]

/-- Reading back the rewritten key returns the new record. -/
theorem lookup_map_updateEntry_self (c : Catalog) (k : String) (r : ProductRecord)
    (hmem : k ∈ keys c) :
    List.lookup k (c.map (updateEntry k r)) = some r := by
  induction c with
  | nil => simp [keys] at hmem
  | cons e t ih =>
      obtain ⟨a, b⟩ := e
      by_cases hak : a = k
      · subst hak
        have h1 : updateEntry a r (a, b) = (a, r) := by simp [updateEntry]
        rw [List.map_cons, h1]
        simp [List.lookup]
      · have h1 : updateEntry k r (a, b) = (a, b) := by simp [updateEntry, hak]
        have hka : (k == a) = false := beq_eq_false_iff_ne.mpr (fun h => hak h.symm)
        have hmem' : k ∈ keys t := by
          rcases (by simpa [keys] using hmem : k = a ∨ k ∈ List.map Prod.fst t) with h | h
          · exact absurd h.symm hak
          · simpa [keys] using h
        rw [List.map_cons, h1]
        simp [List.lookup, hka, ih hmem']

/-- Appending a fresh binding makes its key readable. -/
theorem lookup_append_fresh (c : Catalog) (k : String) (r : ProductRecord)
    (hmem : k ∉ keys c) :
    List.lookup k (c ++ [(k, r)]) = some r := by
  induction c with
  | nil => simp [List.lookup]
  | cons e t ih =>
      obtain ⟨a, b⟩ := e
      have hka : k ≠ a := by
        intro h
        exact hmem (by simp [keys, h])
      have hbeq : (k == a) = false := beq_eq_false_iff_ne.mpr hka
      have hmem' : k ∉ keys t := fun h => hmem (by simp [keys] at h ⊢; exact Or.inr h)
      simp [List.lookup, hbeq, ih hmem']

/-- Python dict assignment followed by a read of the same key returns the
assigned record, whether the key was fresh or overwritten. -/
theorem lookup_dictInsert_self (c : Catalog) (k : String) (r : ProductRecord) :
    List.lookup k (dictInsert c k r) = some r := by
  unfold dictInsert
  split
  · exact lookup_map_updateEntry_self c k r (by
      simpa [List.contains] using ‹(keys c).contains k = true›)
  · exact lookup_append_fresh c k r (by
      simpa [List.contains] using ‹¬(keys c).contains k = true›)

/-- The two cents digits of `centsStr` are digit characters. -/
theorem centsStr_shape (c : ℕ) (hc : c < 100) :
    ∃ d₁ d₂ : Char, (centsStr c).data = [d₁, d₂]
      ∧ d₁.isDigit = true ∧ d₂.isDigit = true := by
  have key : ∀ n : ℕ, n < 100 →
      ((centsStr n).data.length = 2 ∧ (centsStr n).data.all Char.isDigit = true) := by
    decide
  obtain ⟨hlen, hall⟩ := key c hc
  obtain ⟨d₁, d₂, hd⟩ := List.length_eq_two.mp hlen
  rw [hd] at hall
  simp only [List.all_cons, List.all_nil, Bool.and_eq_true, Bool.and_true] at hall
  exact ⟨d₁, d₂, hd, hall.1, hall.2⟩

/-- Whatever the rounded value, `twoDecString` ends in a decimal point
followed by exactly two digit characters. -/
theorem twoDecString_shape (v : ℚ) : hasTwoDecimalPlaces (twoDecString v) := by
  obtain ⟨d₁, d₂, hd, h1, h2⟩ :=
    centsStr_shape ((round (v * 100)).natAbs % 100) (Nat.mod_lt _ (by norm_num))
  refine ⟨(if round (v * 100) < 0 then "-" else "").data
      ++ (toString ((round (v * 100)).natAbs / 100)).data, d₁, d₂, ?_, h1, h2⟩
  show (twoDecString v).data = _
  unfold twoDecString
  simp only [String.data_append, hd, List.append_assoc]
  rfl

/-- Counterexample for C4 as stated: the source never checks the sign of
the price, so the input ("P", "N", "-5") — which the claim's validation
(non-negative decimal) rejects — is accepted: the catalog gains the key
"P" in memory and on disk instead of being left unchanged with a
validation error. -/
theorem negative_price_accepted_cex :
    pyFloat "-5" = some (-5)
    ∧ ((-5 : ℚ) < 0)
    ∧ (generate_product_qr "P" "N" "-5" true { mem := [], disk := [] }).1 = GenStatus.ok
    ∧ keys (generate_product_qr "P" "N" "-5" true { mem := [], disk := [] }).2.mem = ["P"]
    ∧ keys (generate_product_qr "P" "N" "-5" true { mem := [], disk := [] }).2.disk = ["P"] := by
  decide

/-- C4 (amended): `generate_product_qr` validates that the stripped id,
name and price are non-empty and that the price parses as a decimal number
— negative values included, no sign check; on any validation failure it
reports a validation error and leaves the in-memory and durable catalog
unchanged, and on success (with the QR image produced) it writes the
record into the catalog and persists the whole catalog. -/
theorem generate_product_qr_validation (pid name priceStr : String) (st : StoreState) :
    ((pyStrip pid = "" ∨ pyStrip name = "" ∨ pyStrip priceStr = ""
        ∨ pyFloat (pyStrip priceStr) = none) →
      generate_product_qr pid name priceStr true st = (.validationError, st))
    ∧ (∀ v : ℚ, pyStrip pid ≠ "" → pyStrip name ≠ "" → pyStrip priceStr ≠ "" →
        pyFloat (pyStrip priceStr) = some v →
        generate_product_qr pid name priceStr true st =
          (.ok, { mem := dictInsert st.mem (pyStrip pid)
                    { name := pyStrip name, price := formatPrice v }
                  disk := dictInsert st.mem (pyStrip pid)
                    { name := pyStrip name, price := formatPrice v } })) := by
  constructor
  · rintro (h | h | h | h)
    · simp [generate_product_qr, h]
    · simp [generate_product_qr, h]
    · simp [generate_product_qr, h]
    · by_cases he : pyStrip pid = "" ∨ pyStrip name = "" ∨ pyStrip priceStr = ""
      · rcases he with he | he | he <;> simp [generate_product_qr, he]
      · push_neg at he
        simp [generate_product_qr, he.1, he.2.1, he.2.2, h]
  · intro v h1 h2 h3 h4
    simp [generate_product_qr, h1, h2, h3, h4, save_products]

/-- Witness for C4 (amended): an unparseable price is rejected without
mutation, and a parseable (negative) price is accepted and persisted. -/
theorem generate_product_qr_validation_witness :
    (pyFloat (pyStrip "x") = none
      ∧ generate_product_qr "P" "N" "x" true { mem := [], disk := [] }
          = (.validationError, { mem := [], disk := [] }))
    ∧ (pyFloat (pyStrip "-5") = some (-5)
      ∧ generate_product_qr "P" "N" "-5" true { mem := [], disk := [] }
          = (.ok, { mem := dictInsert [] (pyStrip "P")
                      { name := pyStrip "N", price := formatPrice (-5) }
                    disk := dictInsert [] (pyStrip "P")
                      { name := pyStrip "N", price := formatPrice (-5) } })) :=
  ⟨⟨by decide,
    (generate_product_qr_validation "P" "N" "x" _).1
      (Or.inr (Or.inr (Or.inr (by decide))))⟩,
   ⟨by decide,
    (generate_product_qr_validation "P" "N" "-5" _).2 (-5)
      (by decide) (by decide) (by decide) (by decide)⟩⟩

/-- C5: creating (or replacing) a product with valid inputs and then
looking its id up returns exactly the stored record: the stripped name and
the price rendered as the fixed currency symbol `₹` followed by a number
with exactly two decimal places. -/
theorem create_then_lookup_formatted (pid name priceStr : String)
    (st : StoreState) (v : ℚ)
    (h1 : pyStrip pid ≠ "") (h2 : pyStrip name ≠ "") (h3 : pyStrip priceStr ≠ "")
    (h4 : pyFloat (pyStrip priceStr) = some v) (h5 : 0 ≤ v) :
    lookupProduct (generate_product_qr pid name priceStr true st).2.mem (pyStrip pid)
      = some { name := pyStrip name, price := formatPrice v }
    ∧ (formatPrice v).data.head? = some '₹'
    ∧ hasTwoDecimalPlaces (formatPrice v) := by
  have hgen := (generate_product_qr_validation pid name priceStr st).2 v h1 h2 h3 h4
  refine ⟨?_, ?_, ?_⟩
  · rw [hgen]
    exact lookup_dictInsert_self st.mem (pyStrip pid) _
  · simp [formatPrice, String.data_append]
  · obtain ⟨l, d₁, d₂, hd, hh1, hh2⟩ := twoDecString_shape v
    exact ⟨'₹' :: l, d₁, d₂, by simp [formatPrice, String.data_append, hd], hh1, hh2⟩

/-- Witness for C5: storing ("P", "N", "3") and reading "P" back. -/
theorem create_then_lookup_formatted_witness :
    (pyStrip "P" ≠ "" ∧ pyFloat (pyStrip "3") = some 3 ∧ (0 : ℚ) ≤ 3)
    ∧ (lookupProduct
        (generate_product_qr "P" "N" "3" true { mem := [], disk := [] }).2.mem
        (pyStrip "P")
        = some { name := pyStrip "N", price := formatPrice 3 }
      ∧ (formatPrice 3).data.head? = some '₹'
      ∧ hasTwoDecimalPlaces (formatPrice 3)) :=
  ⟨⟨by decide, by decide, by decide⟩,
   create_then_lookup_formatted "P" "N" "3" _ 3
     (by decide) (by decide) (by decide) (by decide) (by decide)⟩

/-- C10: a successful edit of product `pid` rewrites only the record stored
under `pid`: every other id reads back unchanged, the key sequence of the
catalog is unchanged, and `pid` itself remains present. -/
theorem save_changes_frame (pid name priceStr : String) (st : StoreState)
    (hmem : pid ∈ keys st.mem)
    (hok : (save_changes pid name priceStr st).1 = .ok) :
    (∀ y, y ≠ pid →
        lookupProduct (save_changes pid name priceStr st).2.mem y
          = lookupProduct st.mem y)
    ∧ keys (save_changes pid name priceStr st).2.mem = keys st.mem
    ∧ pid ∈ keys (save_changes pid name priceStr st).2.mem := by
  by_cases h1 : pyStrip name = "" ∨ pyStrip priceStr = ""
  · exfalso
    rcases h1 with h | h <;> simp [save_changes, h] at hok
  · push_neg at h1
    rcases h2 : pyFloat (pyStrip priceStr) with _ | v
    · exfalso
      simp [save_changes, h1.1, h1.2, h2] at hok
    · have hst : (save_changes pid name priceStr st).2.mem
          = st.mem.map (updateEntry pid
              { name := pyStrip name, price := formatPrice v }) := by
        simp [save_changes, h1.1, h1.2, h2, save_products]
      rw [hst]
      refine ⟨fun y hy => ?_, keys_map_updateEntry st.mem pid _, ?_⟩
      · exact lookup_map_updateEntry_ne st.mem pid y _ hy
      · rw [keys_map_updateEntry st.mem pid _]
        exact hmem

/-- Witness for C10: editing "X" in a two-product catalog leaves "Y"
reading back unchanged. -/
theorem save_changes_frame_witness :
    ("X" ∈ keys sampleState.mem
      ∧ (save_changes "X" "n" "3" sampleState).1 = .ok)
    ∧ lookupProduct (save_changes "X" "n" "3" sampleState).2.mem "Y"
        = lookupProduct sampleState.mem "Y" :=
  ⟨⟨by decide, by decide⟩,
   (save_changes_frame "X" "n" "3" sampleState (by decide) (by decide)).1 "Y"
     (by decide)⟩

/-- Counterexample for C7 as stated: on the empty catalog the export
handler shows the "Export Failed" warning and writes nothing at all — no
header row is produced. -/
theorem export_empty_catalog_cex :
    ¬ ∃ rows, export_to_csv ([] : Catalog) = some rows := by
  simp [export_to_csv]

/-- C7 (amended): for every non-empty catalog, export writes the header row
`product_id,name,price` followed by exactly one row per record in catalog
iteration order, and re-parsing the exported rows yields exactly the
catalog's `(id, name, price)` triples — in particular the same set of
triples, independent of insertion order. -/
theorem export_roundtrip (products : Catalog) (h : products ≠ []) :
    export_to_csv products
      = some (csvHeader :: products.map (fun e => [e.1, e.2.name, e.2.price]))
    ∧ parseCsvTriples (csvHeader :: products.map (fun e => [e.1, e.2.name, e.2.price]))
      = products.map (fun e => (e.1, e.2.name, e.2.price))
    ∧ ∀ t, t ∈ parseCsvTriples
          (csvHeader :: products.map (fun e => [e.1, e.2.name, e.2.price]))
        ↔ ∃ e ∈ products, t = (e.1, e.2.name, e.2.price) := by
  have hparse : parseCsvTriples
      (csvHeader :: products.map (fun e => [e.1, e.2.name, e.2.price]))
      = products.map (fun e => (e.1, e.2.name, e.2.price)) := by
    unfold parseCsvTriples
    simp only [List.drop_succ_cons, List.drop_zero, List.filterMap_map]
    exact congrFun (List.filterMap_eq_map (fun e => (e.1, e.2.name, e.2.price))) products
  refine ⟨by simp [export_to_csv, h], hparse, fun t => ?_⟩
  rw [hparse]
  simp [List.mem_map, eq_comm]

/-- Witness for C7 (amended): exporting the two-product sample catalog. -/
theorem export_roundtrip_witness :
    sampleCatalog ≠ []
    ∧ export_to_csv sampleCatalog
      = some (csvHeader :: sampleCatalog.map (fun e => [e.1, e.2.name, e.2.price])) :=
  ⟨by decide, (export_roundtrip sampleCatalog (by decide)).1⟩

/-- Every entry of `enumFrom n l` carries an index at least `n`. -/
theorem mem_enumFrom_le {α : Type} :
    ∀ (l : List α) (n : ℕ) (p : ℕ × α), p ∈ List.enumFrom n l → n ≤ p.1 := by
  intro l
  induction l with
  | nil =>
      intro n p h
      simp [List.enumFrom] at h
  | cons a t ih =>
      intro n p h
      rcases (by simpa [List.enumFrom] using h : p = (n, a) ∨ p ∈ List.enumFrom (n + 1) t)
        with h | h
      · subst h
        exact le_refl n
      · have := ih (n + 1) p h
        omega

/-- Key step for batch deletion: erasing position `i` from the list of
elements surviving an index filter `P` — when `P` keeps every index up to
`n + i`, so that the first `i + 1` surviving elements are exactly the first
`i + 1` elements — additionally removes exactly the element carrying
original index `n + i`. -/
theorem eraseIdx_filter_enumFrom {α : Type} (P : ℕ → Bool) :
    ∀ (l : List α) (n i : ℕ), i < l.length → (∀ j, j ≤ n + i → P j = true) →
    (((List.enumFrom n l).filter (fun p => P p.1)).map Prod.snd).eraseIdx i
      = ((List.enumFrom n l).filter (fun p => P p.1 && !(p.1 == n + i))).map Prod.snd := by
  intro l
  induction l with
  | nil =>
      intro n i hi _
      simp at hi
  | cons a t ih =>
      intro n i hi hP
      have hPn : P n = true := hP n (Nat.le_add_right n i)
      have henum : List.enumFrom n (a :: t) = (n, a) :: List.enumFrom (n + 1) t := rfl
      rw [henum]
      cases i with
      | zero =>
          have hfirst : (P n && !(n == n + 0)) = false := by simp [hPn]
          rw [List.filter_cons_of_pos (by simpa using hPn),
              List.filter_cons_of_neg (by simpa using hfirst),
              List.map_cons]
          show ((List.enumFrom (n + 1) t).filter (fun p => P p.1)).map Prod.snd = _
          apply congrArg (List.map Prod.snd)
          apply List.filter_congr
          intro p hp
          have hle : n + 1 ≤ p.1 := mem_enumFrom_le t (n + 1) p hp
          have hne : (p.1 == n + 0) = false := beq_eq_false_iff_ne.mpr (by omega)
          rw [hne]
          simp
      | succ i =>
          have hne : (n == n + (i + 1)) = false := beq_eq_false_iff_ne.mpr (by omega)
          rw [List.filter_cons_of_pos (by simpa using hPn),
              List.filter_cons_of_pos (by simp [hPn, hne]),
              List.map_cons, List.map_cons]
          show a :: (((List.enumFrom (n + 1) t).filter (fun p => P p.1)).map Prod.snd).eraseIdx i
              = a :: ((List.enumFrom (n + 1) t).filter
                  (fun p => P p.1 && !(p.1 == n + (i + 1)))).map Prod.snd
          have hlen : i < t.length := by
            simp at hi
            omega
          have hP' : ∀ j, j ≤ (n + 1) + i → P j = true := fun j hj => hP j (by omega)
          have hkey := ih (n + 1) i hlen hP'
          rw [show n + 1 + i = n + (i + 1) from by omega] at hkey
          rw [hkey]

/-- Folding index erasure over a strictly descending index list — here in
`foldr` form over the ascending list, so the largest index is erased first
— keeps exactly the elements whose original position is not listed. -/
theorem foldr_eraseIdx_sorted {α : Type} :
    ∀ (asc : List ℕ) (l : List α), List.Pairwise (· < ·) asc →
      (∀ i ∈ asc, i < l.length) →
      asc.foldr (fun i h => h.eraseIdx i) l
        = (l.enum.filter (fun p => !(asc.contains p.1))).map Prod.snd := by
  intro asc
  induction asc with
  | nil =>
      intro l _ _
      simp [List.enum_map_snd]
  | cons i rest ih =>
      intro l hpw hlt
      have hrest : List.Pairwise (· < ·) rest := hpw.of_cons
      have hi_lt : ∀ j ∈ rest, i < j := fun j hj => List.rel_of_pairwise_cons hpw hj
      have hil : i < l.length := hlt i (List.mem_cons_self i rest)
      have hforall : ∀ i' ∈ rest, i' < l.length := fun i' h => hlt i' (List.mem_cons_of_mem _ h)
      show (rest.foldr (fun i h => h.eraseIdx i) l).eraseIdx i = _
      rw [ih l hrest hforall]
      have hP : ∀ j, j ≤ 0 + i → (!(rest.contains j)) = true := by
        intro j hj
        have hnotmem : j ∉ rest := fun hmem => absurd (hi_lt j hmem) (by omega)
        simpa [List.contains] using hnotmem
      have hkey := eraseIdx_filter_enumFrom (fun j => !(rest.contains j)) l 0 i hil hP
      have henum : l.enum = List.enumFrom 0 l := rfl
      rw [henum, hkey]
      apply congrArg (List.map Prod.snd)
      apply List.filter_congr
      intro p hp
      by_cases h1 : p.1 = i <;> by_cases h2 : p.1 ∈ rest <;>
        simp [List.contains, h1, h2]

/-- C3: confirmed batch delete removes exactly the events at the selected
positions as resolved against the ledger before any deletion begins —
sorting the distinct in-range indices in reverse and erasing from highest
to lowest produces no index shift; in particular deleting indices {0, 2}
from a 3-element ledger leaves exactly the element originally at index 1. -/
theorem batch_delete_resolves_original_positions {α : Type} (sel : List ℕ)
    (hist : List α) (hnd : sel.Nodup) (hlt : ∀ i ∈ sel, i < hist.length) :
    (delete_history_item sel true hist).1 = removeIndices sel hist
    ∧ ∀ (a b c : α), (delete_history_item [0, 2] true [a, b, c]).1 = [b] := by
  constructor
  · by_cases hsel : sel = []
    · subst hsel
      show hist = removeIndices [] hist
      simp [removeIndices, List.enum_map_snd]
    · unfold delete_history_item
      rw [if_neg hsel, if_pos rfl]
      show ((sel.insertionSort (· ≤ ·)).reverse).foldl (fun h i => h.eraseIdx i) hist
          = removeIndices sel hist
      rw [List.foldl_reverse]
      have hperm : (sel.insertionSort (· ≤ ·)).Perm sel := List.perm_insertionSort _ sel
      have hsorted : (sel.insertionSort (· ≤ ·)).Sorted (· ≤ ·) :=
        List.sorted_insertionSort _ sel
      have hnd' : (sel.insertionSort (· ≤ ·)).Nodup := hperm.nodup_iff.mpr hnd
      have hpw : List.Pairwise (· < ·) (sel.insertionSort (· ≤ ·)) := hsorted.lt_of_le hnd'
      have hlt' : ∀ i ∈ sel.insertionSort (· ≤ ·), i < hist.length :=
        fun i h => hlt i (hperm.mem_iff.mp h)
      rw [foldr_eraseIdx_sorted _ hist hpw hlt']
      unfold removeIndices
      apply congrArg (List.map Prod.snd)
      apply List.filter_congr
      intro p hp
      by_cases hmem : p.1 ∈ sel
      · have h1 : (sel.insertionSort (· ≤ ·)).contains p.1 = true := by
          simpa [List.contains] using hperm.mem_iff.mpr hmem
        simp [h1, hmem]
      · have h1 : (sel.insertionSort (· ≤ ·)).contains p.1 = false := by
          simpa [List.contains] using fun h => hmem (hperm.mem_iff.mp h)
        simp [h1, hmem]
  · intro a b c
    rfl

/-- Witness for C3: deleting {0, 2} from the 3-element ledger [10, 20, 30]
agrees with keeping exactly the unselected positions. -/
theorem batch_delete_resolves_original_positions_witness :
    (([0, 2] : List ℕ).Nodup
      ∧ ∀ i ∈ ([0, 2] : List ℕ), i < ([10, 20, 30] : List ℕ).length)
    ∧ (delete_history_item [0, 2] true ([10, 20, 30] : List ℕ)).1
        = removeIndices [0, 2] [10, 20, 30] :=
  ⟨⟨by decide, by decide⟩,
   (batch_delete_resolves_original_positions [0, 2] [10, 20, 30]
      (by decide) (by decide)).1⟩
